import Mathlib

/-!
Verification of the MMQ in-memory message queue
(`Bricks/mq/inmemory/mq.h`).

The queue is embedded shallowly: each mutex-protected critical section of
the C++ code becomes a pure Lean function on an explicit queue state, and
the interleaving of the (single) producer with the consumer thread becomes
a small-step transition relation built from those functions.  Machine
integers (`size_t`) are modelled as `Nat`; the only wrap-relevant
arithmetic in the source is the `% circular_buffer_size_` in `Increment`,
which is kept explicitly.  The `static_cast<size_t>(-1)` sentinel returned
by `PushMessageAllocate` is modelled as a dedicated constructor of
`AllocResult`, and a call that parks on the condition variable (and hence
does not return in the current state) is modelled by `none` / a `blocked`
result.
-/

set_option autoImplicit false

namespace MMQVerif

/-- Slot status, from `enum { FREE, BEING_IMPORTED, READY, BEING_EXPORTED }`
(line 248 of `mq.h`). -/
inductive Status where
  | FREE
  | BEING_IMPORTED
  | READY
  | BEING_EXPORTED
deriving DecidableEq, Repr

/-- The `Entry` struct (lines 245-249): an absolute index, a message body
and a status, the status initially `FREE`. -/
structure Entry (α : Type) where
  absolute_index : Nat
  message_body : α
  status : Status
deriving DecidableEq, Repr

instance {α : Type} [Inhabited α] : Inhabited (Entry α) :=
  ⟨⟨0, default, .FREE⟩⟩

/-- The state of an `MMQ` instance: the fields of the class that the
producer and consumer operations touch (lines 242-261).  The consumer's
`tail` is deliberately absent: it is local to the consumer thread and is
carried separately. -/
structure MMQ (α : Type) where
  circular_buffer_size : Nat
  circular_buffer : List (Entry α)
  head : Nat
  total_messages : Nat
  destructing : Bool
deriving DecidableEq, Repr

variable {α : Type} [Inhabited α]

/-- The constructor (lines 71-76): any `buffer_size` is accepted without
validation; all slots start `FREE`, `head = 0`, `total_messages = 0`,
`destructing = false`. -/
def MMQ.init (α : Type) [Inhabited α] (buffer_size : Nat) : MMQ α :=
  { circular_buffer_size := buffer_size
    circular_buffer := List.replicate buffer_size ⟨0, default, .FREE⟩
    head := 0
    total_messages := 0
    destructing := false }

/-- `Increment` (line 138): advance an index modulo the buffer size. -/
def Increment (q : MMQ α) (i : Nat) : Nat :=
  (i + 1) % q.circular_buffer_size

/-- Read `circular_buffer_[i]`. -/
def MMQ.slotAt (q : MMQ α) (i : Nat) : Entry α :=
  q.circular_buffer.getD i default

/-- Write `circular_buffer_[i]` through an update of the entry. -/
def MMQ.modifySlot (q : MMQ α) (i : Nat) (f : Entry α → Entry α) : MMQ α :=
  { q with circular_buffer := q.circular_buffer.set i (f (q.slotAt i)) }

/-- Result of `PushMessageAllocate`: a reserved slot index, the
`static_cast<size_t>(-1)` rejection sentinel, or a park on the condition
variable (the call does not return in the current state). -/
inductive AllocResult where
  | reserved (index : Nat)
  | rejected
  | blocked
deriving DecidableEq, Repr

/-- `PushMessageAllocate` for `DROP_ON_OVERFLOW = true` (lines 189-204):
if the head slot is `FREE`, reserve it and advance `head_`; otherwise
return the rejection sentinel.  The destructing flag is not consulted. -/
def pushMessageAllocateDrop (q : MMQ α) : AllocResult × MMQ α :=
  if (q.slotAt q.head).status = .FREE then
    let index := q.head
    let q1 := q.modifySlot index (fun e => { e with status := .BEING_IMPORTED })
    (.reserved index, { q1 with head := Increment q index })
  else
    (.rejected, q)

/-- `PushMessageAllocate` for `DROP_ON_OVERFLOW = false` (lines 206-227):
return the rejection sentinel when destructing; otherwise wait until the
head slot is `FREE` (modelled by `blocked` when it is not) and reserve
it. -/
def pushMessageAllocateBlock (q : MMQ α) : AllocResult × MMQ α :=
  if q.destructing then
    (.rejected, q)
  else if (q.slotAt q.head).status = .FREE then
    let index := q.head
    let q1 := q.modifySlot index (fun e => { e with status := .BEING_IMPORTED })
    (.reserved index, { q1 with head := Increment q index })
  else
    (.blocked, q)

/-- Dispatch on the `DROP_ON_OVERFLOW` template parameter. -/
def pushMessageAllocate (drop : Bool) (q : MMQ α) : AllocResult × MMQ α :=
  if drop then pushMessageAllocateDrop q else pushMessageAllocateBlock q

/-- `PushMessageCommit` (lines 229-235): mark the reserved slot `READY`. -/
def PushMessageCommit (q : MMQ α) (index : Nat) : MMQ α :=
  q.modifySlot index (fun e => { e with status := .READY })

/-- `PushMessage(const T_MESSAGE&)` (lines 91-102), copy semantics.
`none` models the call parking forever on the condition variable inside
`PushMessageAllocate`; otherwise the returned Bool is the C++ return
value. -/
def PushMessage (drop : Bool) (q : MMQ α) (message : α) : Option (Bool × MMQ α) :=
  match pushMessageAllocate drop q with
  | (.blocked, _) => none
  | (.rejected, q1) =>
      some (false, { q1 with total_messages := q1.total_messages + 1 })
  | (.reserved index, q1) =>
      let q2 := q1.modifySlot index (fun e => { e with absolute_index := q1.total_messages })
      let q3 := q2.modifySlot index (fun e => { e with message_body := message })
      let q4 := PushMessageCommit q3 index
      some (true, { q4 with total_messages := q4.total_messages + 1 })

/-- `PushMessage(T_MESSAGE&&)` (lines 104-115), move semantics: a move in
the value model delivers the same message value. -/
def PushMessageMove (drop : Bool) (q : MMQ α) (message : α) : Option (Bool × MMQ α) :=
  match pushMessageAllocate drop q with
  | (.blocked, _) => none
  | (.rejected, q1) =>
      some (false, { q1 with total_messages := q1.total_messages + 1 })
  | (.reserved index, q1) =>
      let q2 := q1.modifySlot index (fun e => { e with absolute_index := q1.total_messages })
      let q3 := q2.modifySlot index (fun e => { e with message_body := message })
      let q4 := PushMessageCommit q3 index
      some (true, { q4 with total_messages := q4.total_messages + 1 })

/-- `EmplaceMessage(ARGS&&...)` (lines 117-129): `made` is the value
`T_MESSAGE(std::forward<ARGS>(args)...)` constructed in place. -/
def EmplaceMessage (drop : Bool) (q : MMQ α) (made : α) : Option (Bool × MMQ α) :=
  match pushMessageAllocate drop q with
  | (.blocked, _) => none
  | (.rejected, q1) =>
      some (false, { q1 with total_messages := q1.total_messages + 1 })
  | (.reserved index, q1) =>
      let q2 := q1.modifySlot index (fun e => { e with absolute_index := q1.total_messages })
      let q3 := q2.modifySlot index (fun e => { e with message_body := made })
      let q4 := PushMessageCommit q3 index
      some (true, { q4 with total_messages := q4.total_messages + 1 })

/-- `EmplaceMessage` when the payload constructor may throw at line 123
(the same shape covers a throwing copy at line 96 or move at line 109):
`make = none` models the constructor raising.  The C++ body has no
try/catch, so on a throw the function unwinds after the `absolute_index`
write, before `PushMessageCommit` and before `++total_messages_`; the
state at unwind is returned in `Except.error`. -/
def EmplaceMessageTry (drop : Bool) (q : MMQ α) (make : Option α) :
    Option (Except (MMQ α) (Bool × MMQ α)) :=
  match pushMessageAllocate drop q with
  | (.blocked, _) => none
  | (.rejected, q1) =>
      some (.ok (false, { q1 with total_messages := q1.total_messages + 1 }))
  | (.reserved index, q1) =>
      let q2 := q1.modifySlot index (fun e => { e with absolute_index := q1.total_messages })
      match make with
      | none => some (.error q2)
      | some made =>
          let q3 := q2.modifySlot index (fun e => { e with message_body := made })
          let q4 := PushMessageCommit q3 index
          some (.ok (true, { q4 with total_messages := q4.total_messages + 1 }))

/-- The decision taken by the consumer at the top of its loop
(lines 151-161), as a function of the state seen with the mutex held:
with the slot `READY` the `while` is skipped and line 158 checks
`destructing_`; with the slot not `READY`, line 152 checks `destructing_`
and otherwise the thread parks on the condition variable (`blocked`). -/
inductive AwaitResult where
  | exit
  | pop
  | blocked
deriving DecidableEq, Repr

def consumerAwait (q : MMQ α) (tail : Nat) : AwaitResult :=
  if (q.slotAt tail).status = .READY then
    if q.destructing then .exit else .pop
  else if q.destructing then .exit
  else .blocked

/-- Line 161: the consumer marks the tail slot `BEING_EXPORTED`. -/
def consumerAcquire (q : MMQ α) (tail : Nat) : MMQ α :=
  q.modifySlot tail (fun e => { e with status := .BEING_EXPORTED })

/-- Lines 176-180: the consumer marks the tail slot `FREE` and advances
its local `tail`. -/
def consumerRecycle (q : MMQ α) (tail : Nat) : MMQ α × Nat :=
  (q.modifySlot tail (fun e => { e with status := .FREE }), Increment q tail)

/-- One full iteration of the consumer loop (lines 146-186) when it
neither parks nor exits: acquire the `READY` tail slot, dispatch its
`absolute_index` (and a `total_messages_` snapshot) to the sink, recycle
the slot.  Returns `(dispatched absolute_index, snapshot, new queue, new
tail)`. -/
def consumerStepFn (q : MMQ α) (tail : Nat) : Option (Nat × Nat × MMQ α × Nat) :=
  match consumerAwait q tail with
  | .pop =>
      let q1 := consumerAcquire q tail
      let a := (q1.slotAt tail).absolute_index
      let snap := q1.total_messages
      let (q2, tail2) := consumerRecycle q1 tail
      some (a, snap, q2, tail2)
  | _ => none

/-- The net effect on the queue of an accepted submission of `m`: the head
slot is overwritten with `⟨total_messages, m, READY⟩`, `head_` advances,
`total_messages_` is incremented. -/
def pushedState (q : MMQ α) (m : α) : MMQ α :=
  { q with
    circular_buffer := q.circular_buffer.set q.head ⟨q.total_messages, m, .READY⟩
    head := Increment q q.head
    total_messages := q.total_messages + 1 }

/-- The net effect on the queue of a rejected submission: only
`total_messages_` is incremented. -/
def bumpedState (q : MMQ α) : MMQ α :=
  { q with total_messages := q.total_messages + 1 }

/-! ### Fine-grained transition system

One step per critical section of the code, for a single producer thread
interleaved with the consumer thread.  The producer's in-flight reservation
and the consumer's in-flight export are made explicit, so that every
individual mutation of a slot's `status` field is a step of the system. -/

/-- Producer thread phase: between `PushMessageAllocate` and
`PushMessageCommit` it holds a reserved slot index. -/
inductive PPhase where
  | idle
  | reserved (index : Nat)
deriving DecidableEq, Repr

/-- Consumer thread phase: `exporting` between line 161
(`status = BEING_EXPORTED`) and line 178 (`status = FREE`); `exited` after
the `return` statements. -/
inductive CPhase where
  | waiting
  | exporting
  | exited
deriving DecidableEq, Repr

structure FState (α : Type) where
  q : MMQ α
  tail : Nat
  pphase : PPhase
  cphase : CPhase
deriving DecidableEq, Repr

/-- Initial fine-grained state over a fresh queue of capacity `n`. -/
def fInit (α : Type) [Inhabited α] (n : Nat) : FState α :=
  { q := MMQ.init α n, tail := 0, pphase := .idle, cphase := .waiting }

/-- One interleaved step of the producer or consumer, at the granularity of
the mutex-protected sections of `mq.h`.  `drop` is the `DROP_ON_OVERFLOW`
template parameter. -/
inductive FStep (drop : Bool) : FState α → FState α → Prop where
  | pAllocate (s : FState α) (i : Nat) (q1 : MMQ α) :
      s.pphase = .idle →
      pushMessageAllocate drop s.q = (.reserved i, q1) →
      FStep drop s { s with q := q1, pphase := .reserved i }
  | pAllocReject (s : FState α) (q1 : MMQ α) :
      s.pphase = .idle →
      pushMessageAllocate drop s.q = (.rejected, q1) →
      FStep drop s { s with q := bumpedState q1 }
  | pMaterializeCommit (s : FState α) (i : Nat) (m : α) :
      s.pphase = .reserved i →
      FStep drop s
        { s with
          q := bumpedState (PushMessageCommit
                 ((s.q.modifySlot i fun e => { e with absolute_index := s.q.total_messages }).modifySlot
                    i fun e => { e with message_body := m }) i)
          pphase := .idle }
  | cAwaitPop (s : FState α) :
      s.cphase = .waiting →
      consumerAwait s.q s.tail = .pop →
      FStep drop s { s with q := consumerAcquire s.q s.tail, cphase := .exporting }
  | cAwaitExit (s : FState α) :
      s.cphase = .waiting →
      consumerAwait s.q s.tail = .exit →
      FStep drop s { s with cphase := .exited }
  | cRecycle (s : FState α) :
      s.cphase = .exporting →
      FStep drop s
        { s with
          q := (consumerRecycle s.q s.tail).1
          tail := (consumerRecycle s.q s.tail).2
          cphase := .waiting }
  | shutdown (s : FState α) :
      FStep drop s { s with q := { s.q with destructing := true } }

/-- Reachability of fine-grained states from the fresh queue. -/
inductive FReach (drop : Bool) (n : Nat) : FState α → Prop where
  | init : FReach drop n (fInit α n)
  | step (s s' : FState α) : FReach drop n s → FStep drop s s' → FReach drop n s'

/-- The four legal slot-state transitions of the spec's per-slot state
machine, plus staying put (a step that does not touch the slot). -/
def allowedTransition (a b : Status) : Prop :=
  a = b ∨
  (a = .FREE ∧ b = .BEING_IMPORTED) ∨
  (a = .BEING_IMPORTED ∧ b = .READY) ∨
  (a = .READY ∧ b = .BEING_EXPORTED) ∨
  (a = .BEING_EXPORTED ∧ b = .FREE)

instance (a b : Status) : Decidable (allowedTransition a b) := by
  unfold allowedTransition; infer_instance

/-- The invariant carried by every reachable fine-grained state. -/
def FInv (n : Nat) (s : FState α) : Prop :=
  s.q.circular_buffer_size = n ∧
  s.q.circular_buffer.length = n ∧
  s.q.head < n ∧
  s.tail < n ∧
  (∀ i : Nat, s.pphase = .reserved i → i < n ∧ (s.q.slotAt i).status = .BEING_IMPORTED) ∧
  (s.cphase = .exporting → (s.q.slotAt s.tail).status = .BEING_EXPORTED)

/-! ### Coarse trace system

For the dispatch-trace invariants the producer's whole submission is taken
as one atomic step: for a single producer this is a sound view, because
the consumer never reads a slot that is not `READY` and `total_messages_`
is written by the producer alone.  The state carries the consumer's local
`tail`, the trace `disp` of dispatched `absolute_index` values, and two
ghost accounting fields: `drops`, the number of rejected submissions so
far, and `stamps`, recording for each accepted submission (in order) the
value of `drops` at the moment it was submitted. -/

structure TState (α : Type) where
  q : MMQ α
  tail : Nat
  disp : List Nat
  stamps : List Nat
  drops : Nat
deriving DecidableEq, Repr

def tInit (α : Type) [Inhabited α] (n : Nat) : TState α :=
  { q := MMQ.init α n, tail := 0, disp := [], stamps := [], drops := 0 }

/-- A trace step: either a completed producer submission (via
`PushMessage`; a blocked call is no step) or one completed consumer loop
iteration (via `consumerStepFn`).  Shutdown is absent: it mutates no slot
and dispatches nothing, so the dispatch-trace claims are unaffected.
This system serializes submissions, i.e. it models a single producer
thread (or producers that never overlap mid-submission).  The
multi-producer interleavings that the THREAD SAFE producer API also
permits are modelled by `MStep` below; they break the dispatch-order
invariants, because the `absolute_index = total_messages_` write at line
95 runs outside the mutex. -/
inductive TStep (drop : Bool) : TState α → TState α → Prop where
  | push (s : TState α) (m : α) (b : Bool) (q' : MMQ α) :
      PushMessage drop s.q m = some (b, q') →
      TStep drop s
        { s with
          q := q'
          stamps := if b then s.stamps ++ [s.drops] else s.stamps
          drops := if b then s.drops else s.drops + 1 }
  | consume (s : TState α) (a snap : Nat) (q' : MMQ α) (t' : Nat) :
      consumerStepFn s.q s.tail = some (a, snap, q', t') →
      TStep drop s { s with q := q', tail := t', disp := s.disp ++ [a] }

inductive TReach (drop : Bool) (n : Nat) : TState α → Prop where
  | init : TReach drop n (tInit α n)
  | step (s s' : TState α) : TReach drop n s → TStep drop s s' → TReach drop n s'

/-- The ring-buffer invariant of the coarse system.  Writing
`k = disp.length` (messages dispatched) and `a = stamps.length` (messages
accepted), the pending messages occupy slots `(k+j) % n` for
`j < a - k`, hold consecutive absolute indexes `(k+j) + stamps[k+j]`, and
every other slot is `FREE`. -/
def TInv (drop : Bool) (n : Nat) (s : TState α) : Prop :=
  s.q.circular_buffer_size = n ∧
  s.q.circular_buffer.length = n ∧
  s.q.destructing = false ∧
  s.q.total_messages = s.stamps.length + s.drops ∧
  (∀ x ∈ s.stamps, x ≤ s.drops) ∧
  List.Pairwise (· ≤ ·) s.stamps ∧
  s.disp.length ≤ s.stamps.length ∧
  s.stamps.length ≤ s.disp.length + n ∧
  s.q.head = s.stamps.length % n ∧
  s.tail = s.disp.length % n ∧
  (∀ j : Nat, j < s.stamps.length - s.disp.length →
      (s.q.slotAt ((s.disp.length + j) % n)).status = .READY ∧
      (s.q.slotAt ((s.disp.length + j) % n)).absolute_index =
        (s.disp.length + j) + s.stamps.getD (s.disp.length + j) 0) ∧
  (∀ i : Nat, i < n → (∀ j : Nat, j < s.stamps.length - s.disp.length →
      i ≠ (s.disp.length + j) % n) → (s.q.slotAt i).status = .FREE) ∧
  (∀ m : Nat, m < s.disp.length → s.disp.getD m 0 = m + s.stamps.getD m 0) ∧
  (drop = false → s.drops = 0)

/-! ### Multi-producer fine-grained system

`PushMessage` is documented THREAD SAFE and the repository's own test
drives the queue from ten producer threads.  Slot reservation and commit
are mutex-guarded, but the `absolute_index = total_messages_` write (line
95) and the `++total_messages_` increment (line 100) run outside the
mutex, so two in-flight submissions can complete out of reservation
order.  This system carries one phase per producer thread.  It contains
the step shapes needed to exhibit concrete executions; each step is a
genuine execution fragment of the code (a producer running one of its
critical sections, or its unlocked materialize/commit sequence without
interleaving, or one consumer iteration), so every reachable state is a
possible program state. -/

structure MState (α : Type) where
  q : MMQ α
  tail : Nat
  pphases : List PPhase
  disp : List Nat
deriving DecidableEq, Repr

/-- Initial multi-producer state: a fresh queue of capacity `n` with
`producers` idle producer threads. -/
def mInit (α : Type) [Inhabited α] (producers n : Nat) : MState α :=
  { q := MMQ.init α n
    tail := 0
    pphases := List.replicate producers .idle
    disp := [] }

/-- One interleaved step of producer `p` or of the consumer.  A producer
allocates (mutex held), then — in a later step, with other threads free
to run in between — writes `absolute_index` from the current
`total_messages_`, writes the payload, commits the slot and increments
the counter. -/
inductive MStep (drop : Bool) : MState α → MState α → Prop where
  | pAllocate (s : MState α) (p i : Nat) (q1 : MMQ α) :
      p < s.pphases.length →
      s.pphases.getD p .idle = .idle →
      pushMessageAllocate drop s.q = (.reserved i, q1) →
      MStep drop s { s with q := q1, pphases := s.pphases.set p (.reserved i) }
  | pMaterializeCommit (s : MState α) (p i : Nat) (m : α) :
      s.pphases.getD p .idle = .reserved i →
      MStep drop s
        { s with
          q := bumpedState (PushMessageCommit
                 ((s.q.modifySlot i fun e => { e with absolute_index := s.q.total_messages }).modifySlot
                    i fun e => { e with message_body := m }) i)
          pphases := s.pphases.set p .idle }
  | consume (s : MState α) (a snap : Nat) (q' : MMQ α) (t' : Nat) :
      consumerStepFn s.q s.tail = some (a, snap, q', t') →
      MStep drop s { s with q := q', tail := t', disp := s.disp ++ [a] }

inductive MReach (drop : Bool) (producers n : Nat) : MState α → Prop where
  | init : MReach drop producers n (mInit α producers n)
  | step (s s' : MState α) :
      MReach drop producers n s → MStep drop s s' → MReach drop producers n s'

/-! ## Basic lemmas about slot access -/

theorem length_modifySlot (q : MMQ α) (i : Nat) (f : Entry α → Entry α) :
    (q.modifySlot i f).circular_buffer.length = q.circular_buffer.length := by
  simp [MMQ.modifySlot]

theorem slotAt_modifySlot_self (q : MMQ α) (i : Nat) (f : Entry α → Entry α)
    (h : i < q.circular_buffer.length) :
    (q.modifySlot i f).slotAt i = f (q.slotAt i) := by
  simp [MMQ.modifySlot, MMQ.slotAt, List.getD_eq_getElem?_getD, List.getElem?_set_self, h]

theorem slotAt_modifySlot_ne (q : MMQ α) (i j : Nat) (f : Entry α → Entry α)
    (h : i ≠ j) :
    (q.modifySlot i f).slotAt j = q.slotAt j := by
  simp [MMQ.modifySlot, MMQ.slotAt, List.getD_eq_getElem?_getD, List.getElem?_set_ne h]

theorem slotAt_init (n i : Nat) (h : i < n) :
    ((MMQ.init α n).slotAt i) = ⟨0, default, .FREE⟩ := by
  simp [MMQ.init, MMQ.slotAt, List.getD_eq_getElem?_getD, List.getElem?_replicate, h]

/-! ## Net-effect lemmas for the producer operations -/

theorem pushMessageAllocate_total (drop : Bool) (q : MMQ α) :
    (pushMessageAllocate drop q).2.total_messages = q.total_messages := by
  unfold pushMessageAllocate pushMessageAllocateDrop pushMessageAllocateBlock
  split_ifs <;> rfl

theorem PushMessage_accept (drop : Bool) (q : MMQ α) (m : α)
    (hlen : q.head < q.circular_buffer.length)
    (hfree : (q.slotAt q.head).status = .FREE)
    (hok : drop = true ∨ q.destructing = false) :
    PushMessage drop q m = some (true, pushedState q m) := by
  have hfree' : (q.circular_buffer[q.head]).status = .FREE := by
    simpa [MMQ.slotAt, List.getD_eq_getElem?_getD, List.getElem?_eq_getElem hlen] using hfree
  cases drop
  · have hd : q.destructing = false := hok.resolve_left (by simp)
    simp [PushMessage, pushMessageAllocate, pushMessageAllocateBlock, hd, hfree',
          PushMessageCommit, MMQ.modifySlot, MMQ.slotAt, pushedState, Increment,
          List.set_set, List.getD_eq_getElem?_getD, List.getElem?_set_self, hlen]
  · simp [PushMessage, pushMessageAllocate, pushMessageAllocateDrop, hfree',
          PushMessageCommit, MMQ.modifySlot, MMQ.slotAt, pushedState, Increment,
          List.set_set, List.getD_eq_getElem?_getD, List.getElem?_set_self, hlen]

theorem PushMessage_reject_drop (q : MMQ α) (m : α)
    (hfull : (q.slotAt q.head).status ≠ .FREE) :
    PushMessage true q m = some (false, bumpedState q) := by
  simp [PushMessage, pushMessageAllocate, pushMessageAllocateDrop, hfull, bumpedState]

theorem PushMessage_reject_shutdown (q : MMQ α) (m : α)
    (hd : q.destructing = true) :
    PushMessage false q m = some (false, bumpedState q) := by
  simp [PushMessage, pushMessageAllocate, pushMessageAllocateBlock, hd, bumpedState]

theorem PushMessage_blocked (q : MMQ α) (m : α)
    (hd : q.destructing = false)
    (hfull : (q.slotAt q.head).status ≠ .FREE) :
    PushMessage false q m = none := by
  simp [PushMessage, pushMessageAllocate, pushMessageAllocateBlock, hd, hfull]

theorem PushMessage_accept_inv (drop : Bool) (q : MMQ α) (m : α) (q' : MMQ α)
    (hlen : q.head < q.circular_buffer.length)
    (h : PushMessage drop q m = some (true, q')) :
    (q.slotAt q.head).status = .FREE ∧ q' = pushedState q m := by
  by_cases hfree : (q.slotAt q.head).status = .FREE
  · refine ⟨hfree, ?_⟩
    cases drop
    · by_cases hd : q.destructing
      · rw [PushMessage_reject_shutdown q m hd] at h
        simp at h
      · rw [PushMessage_accept false q m hlen hfree (Or.inr (by simpa using hd))] at h
        simpa using h.symm
    · rw [PushMessage_accept true q m hlen hfree (Or.inl rfl)] at h
      simpa using h.symm
  · exfalso
    cases drop
    · by_cases hd : q.destructing
      · rw [PushMessage_reject_shutdown q m hd] at h
        simp at h
      · rw [PushMessage_blocked q m (by simpa using hd) hfree] at h
        simp at h
    · rw [PushMessage_reject_drop q m hfree] at h
      simp at h

/-! ## Net-effect lemmas for the consumer -/

theorem consumerAwait_exit_iff (q : MMQ α) (tail : Nat) :
    consumerAwait q tail = .exit ↔ q.destructing = true := by
  unfold consumerAwait
  split_ifs <;> simp_all

theorem consumerAwait_pop_iff (q : MMQ α) (tail : Nat) :
    consumerAwait q tail = .pop ↔
      q.destructing = false ∧ (q.slotAt tail).status = .READY := by
  unfold consumerAwait
  split_ifs <;> simp_all

theorem consumerStepFn_eq (q : MMQ α) (tail : Nat)
    (hlen : tail < q.circular_buffer.length)
    (hd : q.destructing = false)
    (hready : (q.slotAt tail).status = .READY) :
    consumerStepFn q tail =
      some ((q.slotAt tail).absolute_index, q.total_messages,
        q.modifySlot tail (fun e => { e with status := .FREE }), Increment q tail) := by
  have hready' : (q.circular_buffer[tail]).status = .READY := by
    simpa [MMQ.slotAt, List.getD_eq_getElem?_getD, List.getElem?_eq_getElem hlen] using hready
  simp [consumerStepFn, consumerAwait, hd, hready', consumerAcquire, consumerRecycle,
        MMQ.modifySlot, MMQ.slotAt, Increment, List.set_set,
        List.getD_eq_getElem?_getD, List.getElem?_set_self, hlen]

theorem consumerStepFn_inv (q : MMQ α) (tail a snap : Nat) (q' : MMQ α) (t' : Nat)
    (hlen : tail < q.circular_buffer.length)
    (h : consumerStepFn q tail = some (a, snap, q', t')) :
    q.destructing = false ∧ (q.slotAt tail).status = .READY ∧
    a = (q.slotAt tail).absolute_index ∧ snap = q.total_messages ∧
    q' = q.modifySlot tail (fun e => { e with status := .FREE }) ∧
    t' = Increment q tail := by
  have hpop : consumerAwait q tail = .pop := by
    unfold consumerStepFn at h
    cases hA : consumerAwait q tail
    case exit => rw [hA] at h; simp at h
    case pop => rfl
    case blocked => rw [hA] at h; simp at h
  obtain ⟨hd, hready⟩ := (consumerAwait_pop_iff q tail).mp hpop
  rw [consumerStepFn_eq q tail hlen hd hready] at h
  have h0 := Option.some.inj h
  injection h0 with h1 h0
  injection h0 with h2 h0
  injection h0 with h3 h4
  exact ⟨hd, hready, h1.symm, h2.symm, h3.symm, h4.symm⟩

theorem slotAt_pushedState_self (q : MMQ α) (m : α)
    (hlen : q.head < q.circular_buffer.length) :
    (pushedState q m).slotAt q.head = ⟨q.total_messages, m, .READY⟩ := by
  simp [pushedState, MMQ.slotAt, List.getD_eq_getElem?_getD, List.getElem?_set_self, hlen]

theorem PushMessage_total (drop : Bool) (q : MMQ α) (m : α) (r : Bool × MMQ α)
    (h : PushMessage drop q m = some r) :
    r.2.total_messages = q.total_messages + 1 := by
  have htot := pushMessageAllocate_total drop q
  unfold PushMessage at h
  rcases hA : pushMessageAllocate drop q with ⟨res, q1⟩
  rw [hA] at h htot
  cases res
  case blocked => simp at h
  case rejected =>
    have hr := Option.some.inj h
    rw [← hr]
    simpa using htot
  case reserved i =>
    have hr := Option.some.inj h
    rw [← hr]
    simpa [PushMessageCommit, MMQ.modifySlot] using htot

/-! ## Claim C9 -/

/-- C9: for the same starting queue state and the same message value, the
three submission overloads — copy, move, and in-place construction —
return the same boolean and the same resulting queue state; they differ
only in how the payload value is materialized. -/
theorem push_overloads_equivalent (drop : Bool) (q : MMQ α) (m : α) :
    PushMessageMove drop q m = PushMessage drop q m ∧
    EmplaceMessage drop q m = PushMessage drop q m :=
  ⟨rfl, rfl⟩

/-! ## Claim C2 -/

/-- C2 counterexample: a state in which shutdown is requested while the
slot at tail is READY.  The consumer loop head (lines 151-161) exits
instead of dispatching, refuting the claim that the consumer exits only
when the tail slot is not READY and always dispatches a READY slot. -/
theorem consumer_shutdown_ready_counterexample :
    (({ MMQ.init Nat 1 with
        circular_buffer := [⟨0, 3, .READY⟩], destructing := true } : MMQ Nat).slotAt 0).status
        = .READY ∧
    consumerAwait ({ MMQ.init Nat 1 with
        circular_buffer := [⟨0, 3, .READY⟩], destructing := true } : MMQ Nat) 0 = .exit ∧
    AwaitResult.exit ≠ AwaitResult.pop := by decide

/-- C2 amended: the consumer exits exactly when shutdown is set, even if
the tail slot is READY; it pops exactly when shutdown is not set and the
tail slot is READY, in which case it marks the slot BEING_EXPORTED and
dispatches its absolute index (with a total_messages snapshot) before
recycling the slot. -/
theorem consumer_await_semantics (q : MMQ α) (tail : Nat) :
    (consumerAwait q tail = .exit ↔ q.destructing = true) ∧
    (consumerAwait q tail = .pop ↔
        q.destructing = false ∧ (q.slotAt tail).status = .READY) ∧
    (tail < q.circular_buffer.length → consumerAwait q tail = .pop →
        ((consumerAcquire q tail).slotAt tail).status = .BEING_EXPORTED ∧
        consumerStepFn q tail =
          some ((q.slotAt tail).absolute_index, q.total_messages,
            q.modifySlot tail (fun e => { e with status := .FREE }), Increment q tail)) := by
  refine ⟨consumerAwait_exit_iff q tail, consumerAwait_pop_iff q tail, fun hlen hpop => ?_⟩
  obtain ⟨hd, hready⟩ := (consumerAwait_pop_iff q tail).mp hpop
  refine ⟨?_, consumerStepFn_eq q tail hlen hd hready⟩
  have hself := slotAt_modifySlot_self q tail
    (fun e => { e with status := .BEING_EXPORTED }) hlen
  simp [consumerAcquire, hself]

theorem consumer_await_semantics_witness :
    ((consumerAcquire ({ MMQ.init Nat 1 with
        circular_buffer := [⟨5, 9, .READY⟩] } : MMQ Nat) 0).slotAt 0).status
      = .BEING_EXPORTED :=
  ((consumer_await_semantics ({ MMQ.init Nat 1 with
      circular_buffer := [⟨5, 9, .READY⟩] } : MMQ Nat) 0).2.2 (by decide) (by decide)).1

/-! ## Claim C3 -/

/-- C3 counterexample: on a fresh capacity-1 queue with the shutdown flag
set, a drop-policy PushMessage still returns true and publishes a READY
slot — the drop-mode PushMessageAllocate (lines 189-204) never consults
the destructing flag. -/
theorem push_after_shutdown_drop_counterexample :
    PushMessage true ({ MMQ.init Nat 1 with destructing := true } : MMQ Nat) 5 =
      some (true,
        { circular_buffer_size := 1
          circular_buffer := [⟨0, 5, .READY⟩]
          head := 0
          total_messages := 1
          destructing := true }) := by decide

/-- C3 amended: under the block policy, every submission after shutdown
returns false and changes nothing except the total_messages increment;
under the drop policy the shutdown flag is not consulted, so a submission
after shutdown is rejected exactly when the head slot is not FREE and is
otherwise accepted and published as usual. -/
theorem shutdown_submission_semantics (q : MMQ α) (m : α)
    (hd : q.destructing = true) :
    PushMessage false q m = some (false, bumpedState q) ∧
    PushMessageMove false q m = some (false, bumpedState q) ∧
    EmplaceMessage false q m = some (false, bumpedState q) ∧
    (bumpedState q).circular_buffer = q.circular_buffer ∧
    ((q.slotAt q.head).status ≠ .FREE →
        PushMessage true q m = some (false, bumpedState q)) ∧
    ((q.slotAt q.head).status = .FREE → q.head < q.circular_buffer.length →
        PushMessage true q m = some (true, pushedState q m)) :=
  ⟨PushMessage_reject_shutdown q m hd, PushMessage_reject_shutdown q m hd,
   PushMessage_reject_shutdown q m hd, rfl,
   fun hfull => PushMessage_reject_drop q m hfull,
   fun hfree hlen => PushMessage_accept true q m hlen hfree (Or.inl rfl)⟩

theorem shutdown_submission_semantics_witness :
    PushMessage false ({ MMQ.init Nat 1 with destructing := true } : MMQ Nat) 4 =
      some (false, bumpedState ({ MMQ.init Nat 1 with destructing := true } : MMQ Nat)) :=
  (shutdown_submission_semantics
    ({ MMQ.init Nat 1 with destructing := true } : MMQ Nat) 4 (by decide)).1

/-! ## Claim C4 -/

/-- C4: every submission call that returns normally — accepted, discarded
by the drop policy, or rejected at shutdown — increments total_messages by
exactly one, for all three overloads and both policies. -/
theorem submission_increments_total (drop : Bool) (q : MMQ α) (m : α)
    (b : Bool) (q' : MMQ α) :
    (PushMessage drop q m = some (b, q') →
        q'.total_messages = q.total_messages + 1) ∧
    (PushMessageMove drop q m = some (b, q') →
        q'.total_messages = q.total_messages + 1) ∧
    (EmplaceMessage drop q m = some (b, q') →
        q'.total_messages = q.total_messages + 1) :=
  ⟨fun h => PushMessage_total drop q m (b, q') h,
   fun h => PushMessage_total drop q m (b, q') h,
   fun h => PushMessage_total drop q m (b, q') h⟩

theorem submission_increments_total_witness :
    ({ circular_buffer_size := 1
       circular_buffer := [⟨0, 2, .READY⟩]
       head := 0
       total_messages := 1
       destructing := false } : MMQ Nat).total_messages
      = (MMQ.init Nat 1).total_messages + 1 :=
  (submission_increments_total true (MMQ.init Nat 1) 2 true
    { circular_buffer_size := 1
      circular_buffer := [⟨0, 2, .READY⟩]
      head := 0
      total_messages := 1
      destructing := false }).1 (by decide)

/-! ## Claim C5 -/

/-- C5: an accepted submission writes into its reserved slot the value of
total_messages observed before the operation's own increment; on a fresh
queue the first accepted submission is assigned absolute_index 0. -/
theorem absolute_index_from_total (drop : Bool) (q : MMQ α) (m : α) (q' : MMQ α)
    (hlen : q.head < q.circular_buffer.length)
    (h : PushMessage drop q m = some (true, q')) :
    ((q'.slotAt q.head).absolute_index = q.total_messages ∧
     q'.total_messages = q.total_messages + 1) ∧
    (∀ n : Nat, 0 < n →
        PushMessage drop (MMQ.init α n) m =
          some (true, pushedState (MMQ.init α n) m) ∧
        ((pushedState (MMQ.init α n) m).slotAt 0).absolute_index = 0) := by
  obtain ⟨hfree, hq⟩ := PushMessage_accept_inv drop q m q' hlen h
  subst hq
  constructor
  · rw [slotAt_pushedState_self q m hlen]
    exact ⟨rfl, rfl⟩
  · intro n hn
    have hlen0 : (MMQ.init α n).head < (MMQ.init α n).circular_buffer.length := by
      simpa [MMQ.init] using hn
    have hfree0 : ((MMQ.init α n).slotAt (MMQ.init α n).head).status = .FREE := by
      have := slotAt_init (α := α) n 0 hn
      simpa [MMQ.init] using congrArg Entry.status this
    refine ⟨PushMessage_accept drop (MMQ.init α n) m hlen0 hfree0 ?_, ?_⟩
    · cases drop
      · exact Or.inr rfl
      · exact Or.inl rfl
    · have := slotAt_pushedState_self (MMQ.init α n) m hlen0
      simpa [MMQ.init] using congrArg Entry.absolute_index this

theorem absolute_index_from_total_witness :
    ((({ circular_buffer_size := 2
         circular_buffer := [⟨0, 7, .READY⟩, ⟨0, 0, .FREE⟩]
         head := 1
         total_messages := 1
         destructing := false } : MMQ Nat)).slotAt 0).absolute_index
      = (MMQ.init Nat 2).total_messages :=
  (absolute_index_from_total true (MMQ.init Nat 2) 7
    { circular_buffer_size := 2
      circular_buffer := [⟨0, 7, .READY⟩, ⟨0, 0, .FREE⟩]
      head := 1
      total_messages := 1
      destructing := false } (by decide) (by decide)).1.1

/-! ## Claim C6 -/

/-- C6: under the drop policy, a submission that finds the head slot
occupied is rejected: it leaves every slot, the head pointer and the
destructing flag untouched, constructs no payload, and still increments
total_messages by one. -/
theorem drop_overflow_frame (q : MMQ α) (m : α)
    (hfull : (q.slotAt q.head).status ≠ .FREE) :
    PushMessage true q m = some (false, bumpedState q) ∧
    (bumpedState q).circular_buffer = q.circular_buffer ∧
    (bumpedState q).head = q.head ∧
    (bumpedState q).destructing = q.destructing ∧
    (bumpedState q).total_messages = q.total_messages + 1 :=
  ⟨PushMessage_reject_drop q m hfull, rfl, rfl, rfl, rfl⟩

theorem drop_overflow_frame_witness :
    PushMessage true
      ({ circular_buffer_size := 1
         circular_buffer := [⟨0, 1, .READY⟩]
         head := 0
         total_messages := 1
         destructing := false } : MMQ Nat) 9 =
      some (false, bumpedState
        ({ circular_buffer_size := 1
           circular_buffer := [⟨0, 1, .READY⟩]
           head := 0
           total_messages := 1
           destructing := false } : MMQ Nat)) :=
  (drop_overflow_frame
    ({ circular_buffer_size := 1
       circular_buffer := [⟨0, 1, .READY⟩]
       head := 0
       total_messages := 1
       destructing := false } : MMQ Nat) 9 (by decide)).1

/-! ## Claim C7 -/

/-- C7: evaluating the embedded submission at the failing input.  When the
payload constructor raises after the slot has been reserved, the body of
the push operation (which has no handler) propagates the failure but
leaves the reserved slot in BEING_IMPORTED — it is not restored to FREE —
under either overflow policy. -/
theorem ctor_failure_leaves_slot_reserved :
    EmplaceMessageTry true (MMQ.init Nat 1) none =
      some (.error { circular_buffer_size := 1
                     circular_buffer := [⟨0, 0, .BEING_IMPORTED⟩]
                     head := 0
                     total_messages := 0
                     destructing := false }) ∧
    EmplaceMessageTry false (MMQ.init Nat 1) none =
      some (.error { circular_buffer_size := 1
                     circular_buffer := [⟨0, 0, .BEING_IMPORTED⟩]
                     head := 0
                     total_messages := 0
                     destructing := false }) ∧
    Status.BEING_IMPORTED ≠ Status.FREE :=
  ⟨rfl, rfl, by decide⟩

/-! ## Inversion lemmas for PushMessageAllocate -/

theorem pushMessageAllocate_reserved_inv (drop : Bool) (q q1 : MMQ α) (i : Nat)
    (h : pushMessageAllocate drop q = (.reserved i, q1)) :
    i = q.head ∧ (q.slotAt q.head).status = .FREE ∧
    q1 = { q.modifySlot q.head (fun e => { e with status := .BEING_IMPORTED })
           with head := Increment q q.head } := by
  unfold pushMessageAllocate pushMessageAllocateDrop pushMessageAllocateBlock at h
  split_ifs at h with h1 h2 h3 h4
  · injection h with hr hq
    injection hr with hi
    exact ⟨hi.symm, h2, hq.symm⟩
  · simp at h
  · simp at h
  · injection h with hr hq
    injection hr with hi
    exact ⟨hi.symm, h4, hq.symm⟩
  · simp at h

theorem pushMessageAllocate_rejected_inv (drop : Bool) (q q1 : MMQ α)
    (h : pushMessageAllocate drop q = (.rejected, q1)) : q1 = q := by
  unfold pushMessageAllocate pushMessageAllocateDrop pushMessageAllocateBlock at h
  split_ifs at h <;> simp_all

/-! ## The fine-grained invariant -/

theorem FInv_init (n : Nat) (hn : 0 < n) : FInv n (fInit α n) := by
  refine ⟨rfl, by simp [fInit, MMQ.init], hn, hn, ?_, ?_⟩
  · intro i hi
    exact absurd hi (by simp [fInit])
  · intro hc
    exact absurd hc (by simp [fInit])

theorem FInv_step (drop : Bool) (n : Nat) (hn : 0 < n) (s s' : FState α)
    (hinv : FInv n s) (hstep : FStep drop s s') : FInv n s' := by
  obtain ⟨hsize, hlen, hhead, htail, hres, hexp⟩ := hinv
  have hlen' : s.q.head < s.q.circular_buffer.length := by rw [hlen]; exact hhead
  have htail' : s.tail < s.q.circular_buffer.length := by rw [hlen]; exact htail
  cases hstep
  case pAllocate i q1 hph hA =>
    obtain ⟨hi, hfree, hq1⟩ := pushMessageAllocate_reserved_inv drop s.q q1 i hA
    subst hi
    subst hq1
    refine ⟨hsize, by simpa [MMQ.modifySlot] using hlen, ?_, htail, ?_, ?_⟩
    · show (s.q.head + 1) % s.q.circular_buffer_size < n
      rw [hsize]
      exact Nat.mod_lt _ hn
    · intro j hj
      obtain rfl : j = s.q.head := by
        simpa using hj.symm
      refine ⟨hhead, ?_⟩
      have := slotAt_modifySlot_self s.q s.q.head
        (fun e => { e with status := .BEING_IMPORTED }) hlen'
      show ((s.q.modifySlot s.q.head
        (fun e => { e with status := .BEING_IMPORTED })).slotAt s.q.head).status = _
      rw [this]
    · intro hc
      have hBE := hexp hc
      have hne : s.q.head ≠ s.tail := by
        intro he
        rw [he, hBE] at hfree
        exact absurd hfree (by simp)
      have := slotAt_modifySlot_ne s.q s.q.head s.tail
        (fun e => { e with status := .BEING_IMPORTED }) hne
      show ((s.q.modifySlot s.q.head
        (fun e => { e with status := .BEING_IMPORTED })).slotAt s.tail).status = _
      rw [this]
      exact hBE
  case pAllocReject q1 hph hA =>
    obtain rfl := pushMessageAllocate_rejected_inv drop s.q q1 hA
    exact ⟨hsize, hlen, hhead, htail, hres, hexp⟩
  case pMaterializeCommit i m hph =>
    obtain ⟨hin, hBI⟩ := hres i hph
    have hilen : i < s.q.circular_buffer.length := by rw [hlen]; exact hin
    refine ⟨hsize, ?_, hhead, htail, ?_, ?_⟩
    · simpa [bumpedState, PushMessageCommit, MMQ.modifySlot] using hlen
    · intro j hj
      exact absurd hj (by simp)
    · intro hc
      have hBE := hexp hc
      have hne : i ≠ s.tail := by
        intro he
        rw [he, hBE] at hBI
        exact absurd hBI (by simp)
      have h2 := slotAt_modifySlot_ne s.q i s.tail
        (fun e => { e with absolute_index := s.q.total_messages }) hne
      have h3 := slotAt_modifySlot_ne
        (s.q.modifySlot i fun e => { e with absolute_index := s.q.total_messages }) i s.tail
        (fun e => { e with message_body := m }) hne
      have h4 := slotAt_modifySlot_ne
        ((s.q.modifySlot i fun e => { e with absolute_index := s.q.total_messages }).modifySlot
          i fun e => { e with message_body := m }) i s.tail
        (fun e => { e with status := .READY }) hne
      show (((PushMessageCommit
        ((s.q.modifySlot i fun e => { e with absolute_index := s.q.total_messages }).modifySlot
          i fun e => { e with message_body := m }) i).slotAt s.tail).status) = _
      unfold PushMessageCommit
      rw [h4, h3, h2]
      exact hBE
  case cAwaitPop hc hpop =>
    obtain ⟨hd, hready⟩ := (consumerAwait_pop_iff s.q s.tail).mp hpop
    refine ⟨hsize, by simpa [consumerAcquire, MMQ.modifySlot] using hlen, hhead, htail, ?_, ?_⟩
    · intro j hj
      obtain ⟨hin, hBI⟩ := hres j hj
      have hne : s.tail ≠ j := by
        intro he
        rw [← he, hready] at hBI
        exact absurd hBI (by simp)
      refine ⟨hin, ?_⟩
      have := slotAt_modifySlot_ne s.q s.tail j
        (fun e => { e with status := .BEING_EXPORTED }) hne
      show ((s.q.modifySlot s.tail
        (fun e => { e with status := .BEING_EXPORTED })).slotAt j).status = _
      rw [this]
      exact hBI
    · intro _
      have := slotAt_modifySlot_self s.q s.tail
        (fun e => { e with status := .BEING_EXPORTED }) htail'
      show ((s.q.modifySlot s.tail
        (fun e => { e with status := .BEING_EXPORTED })).slotAt s.tail).status = _
      rw [this]
  case cAwaitExit hc hexit =>
    refine ⟨hsize, hlen, hhead, htail, hres, ?_⟩
    intro h
    exact absurd h (by simp)
  case cRecycle hc =>
    have hBE := hexp hc
    refine ⟨hsize, by simpa [consumerRecycle, MMQ.modifySlot] using hlen, hhead, ?_, ?_, ?_⟩
    · show (s.tail + 1) % s.q.circular_buffer_size < n
      rw [hsize]
      exact Nat.mod_lt _ hn
    · intro j hj
      obtain ⟨hin, hBI⟩ := hres j hj
      have hne : s.tail ≠ j := by
        intro he
        rw [← he, hBE] at hBI
        exact absurd hBI (by simp)
      refine ⟨hin, ?_⟩
      have := slotAt_modifySlot_ne s.q s.tail j
        (fun e => { e with status := .FREE }) hne
      show (((consumerRecycle s.q s.tail).1).slotAt j).status = _
      rw [consumerRecycle]
      rw [this]
      exact hBI
    · intro h
      exact absurd h (by simp)
  case shutdown =>
    exact ⟨hsize, hlen, hhead, htail, hres, hexp⟩

theorem FReach_inv (drop : Bool) (n : Nat) (hn : 0 < n) (s : FState α)
    (hr : FReach drop n s) : FInv n s := by
  induction hr with
  | init => exact FInv_init n hn
  | step s1 s2 _ hstep ih => exact FInv_step drop n hn s1 s2 ih hstep

/-! ## Claim C8 -/

/-- C8: along every step taken from a reachable state of the fine-grained
system, each slot's status either stays put or makes one of exactly the
four legal transitions: FREE→BEING_IMPORTED (producer reserves),
BEING_IMPORTED→READY (producer publishes), READY→BEING_EXPORTED (consumer
pops), BEING_EXPORTED→FREE (consumer finishes dispatch). -/
theorem slot_state_machine (drop : Bool) (n : Nat) (s s' : FState α)
    (hn : 0 < n) (hr : FReach drop n s) (hstep : FStep drop s s')
    (i : Nat) (hi : i < n) :
    allowedTransition ((s.q.slotAt i).status) ((s'.q.slotAt i).status) := by
  obtain ⟨hsize, hlen, hhead, htail, hres, hexp⟩ := FReach_inv drop n hn s hr
  have hilen : i < s.q.circular_buffer.length := by rw [hlen]; exact hi
  cases hstep
  case pAllocate j q1 hph hA =>
    obtain ⟨hj, hfree, hq1⟩ := pushMessageAllocate_reserved_inv drop s.q q1 j hA
    subst hj
    subst hq1
    show allowedTransition ((s.q.slotAt i).status)
      (((s.q.modifySlot s.q.head
          (fun e => { e with status := .BEING_IMPORTED })).slotAt i).status)
    by_cases hih : i = s.q.head
    · subst hih
      rw [slotAt_modifySlot_self s.q s.q.head
        (fun e => { e with status := .BEING_IMPORTED }) hilen]
      exact Or.inr (Or.inl ⟨hfree, rfl⟩)
    · rw [slotAt_modifySlot_ne s.q s.q.head i
        (fun e => { e with status := .BEING_IMPORTED }) (fun he => hih he.symm)]
      exact Or.inl rfl
  case pAllocReject q1 hph hA =>
    obtain rfl := pushMessageAllocate_rejected_inv drop s.q q1 hA
    exact Or.inl rfl
  case pMaterializeCommit j m hph =>
    obtain ⟨hjn, hBI⟩ := hres j hph
    have hjlen : j < s.q.circular_buffer.length := by rw [hlen]; exact hjn
    show allowedTransition ((s.q.slotAt i).status)
      (((PushMessageCommit
          ((s.q.modifySlot j fun e => { e with absolute_index := s.q.total_messages }).modifySlot
            j fun e => { e with message_body := m }) j).slotAt i).status)
    unfold PushMessageCommit
    by_cases hij : i = j
    · subst hij
      have hl2 : i < ((s.q.modifySlot i fun e =>
          { e with absolute_index := s.q.total_messages })).circular_buffer.length := by
        rw [length_modifySlot]; exact hilen
      have hl3 : i < (((s.q.modifySlot i fun e =>
          { e with absolute_index := s.q.total_messages })).modifySlot i fun e =>
          { e with message_body := m }).circular_buffer.length := by
        rw [length_modifySlot, length_modifySlot]; exact hilen
      rw [slotAt_modifySlot_self _ i (fun e => { e with status := .READY }) hl3,
          slotAt_modifySlot_self _ i (fun e => { e with message_body := m }) hl2,
          slotAt_modifySlot_self _ i (fun e => { e with absolute_index := s.q.total_messages }) hilen]
      exact Or.inr (Or.inr (Or.inl ⟨hBI, rfl⟩))
    · have hne : j ≠ i := fun he => hij he.symm
      rw [slotAt_modifySlot_ne _ j i (fun e => { e with status := .READY }) hne,
          slotAt_modifySlot_ne _ j i (fun e => { e with message_body := m }) hne,
          slotAt_modifySlot_ne _ j i (fun e => { e with absolute_index := s.q.total_messages }) hne]
      exact Or.inl rfl
  case cAwaitPop hc hpop =>
    obtain ⟨hd, hready⟩ := (consumerAwait_pop_iff s.q s.tail).mp hpop
    show allowedTransition ((s.q.slotAt i).status)
      (((s.q.modifySlot s.tail
          (fun e => { e with status := .BEING_EXPORTED })).slotAt i).status)
    by_cases hit : i = s.tail
    · subst hit
      rw [slotAt_modifySlot_self s.q s.tail
        (fun e => { e with status := .BEING_EXPORTED }) hilen]
      exact Or.inr (Or.inr (Or.inr (Or.inl ⟨hready, rfl⟩)))
    · rw [slotAt_modifySlot_ne s.q s.tail i
        (fun e => { e with status := .BEING_EXPORTED }) (fun he => hit he.symm)]
      exact Or.inl rfl
  case cAwaitExit hc hexit =>
    exact Or.inl rfl
  case cRecycle hc =>
    have hBE := hexp hc
    show allowedTransition ((s.q.slotAt i).status)
      (((s.q.modifySlot s.tail (fun e => { e with status := .FREE })).slotAt i).status)
    by_cases hit : i = s.tail
    · subst hit
      rw [slotAt_modifySlot_self s.q s.tail
        (fun e => { e with status := .FREE }) hilen]
      exact Or.inr (Or.inr (Or.inr (Or.inr ⟨hBE, rfl⟩)))
    · rw [slotAt_modifySlot_ne s.q s.tail i
        (fun e => { e with status := .FREE }) (fun he => hit he.symm)]
      exact Or.inl rfl
  case shutdown =>
    exact Or.inl rfl

theorem slot_state_machine_witness :
    allowedTransition (((fInit Nat 1).q.slotAt 0).status)
      ((({ fInit Nat 1 with
           q := { (fInit Nat 1).q with destructing := true } } : FState Nat).q.slotAt 0).status) :=
  slot_state_machine false 1 (fInit Nat 1)
    { fInit Nat 1 with q := { (fInit Nat 1).q with destructing := true } }
    (by decide) FReach.init (FStep.shutdown (fInit Nat 1)) 0 (by decide)

/-! ## Claim C10 -/

/-- C10: the constructor accepts any buffer size, including 0, without
validation (the buffer really gets that length); given capacity at least
1, Increment stays below the capacity (its modulo never divides by zero),
and in every reachable fine-grained state the indexes used to access the
buffer — the producer's head and the consumer's tail — are below the
capacity, which equals the buffer length. -/
theorem capacity_unvalidated_and_safe :
    (∀ k : Nat, (MMQ.init Nat k).circular_buffer.length = k) ∧
    (∀ (q : MMQ Nat) (i : Nat), 0 < q.circular_buffer_size →
        Increment q i < q.circular_buffer_size) ∧
    (∀ (drop : Bool) (n : Nat) (s : FState Nat), 0 < n → FReach drop n s →
        s.q.circular_buffer.length = n ∧ s.q.head < n ∧ s.tail < n) := by
  refine ⟨fun k => by simp [MMQ.init], fun q i h => Nat.mod_lt _ h, ?_⟩
  intro drop n s hn hr
  obtain ⟨_, hlen, hhead, htail, _, _⟩ := FReach_inv drop n hn s hr
  exact ⟨hlen, hhead, htail⟩

theorem capacity_unvalidated_and_safe_witness :
    (MMQ.init Nat 0).circular_buffer.length = 0 ∧
    Increment (MMQ.init Nat 3) 7 < (MMQ.init Nat 3).circular_buffer_size ∧
    (fInit Nat 2).q.head < 2 :=
  ⟨capacity_unvalidated_and_safe.1 0,
   capacity_unvalidated_and_safe.2.1 (MMQ.init Nat 3) 7 (by decide),
   (capacity_unvalidated_and_safe.2.2 false 2 (fInit Nat 2) (by decide) FReach.init).2.1⟩

/-! ## Lemmas for the coarse trace system -/

theorem PushMessage_reject_inv (drop : Bool) (q : MMQ α) (m : α) (q' : MMQ α)
    (hlen : q.head < q.circular_buffer.length)
    (hdes : q.destructing = false)
    (h : PushMessage drop q m = some (false, q')) :
    q' = bumpedState q ∧ drop = true ∧ (q.slotAt q.head).status ≠ .FREE := by
  by_cases hfree : (q.slotAt q.head).status = .FREE
  · rw [PushMessage_accept drop q m hlen hfree (Or.inr hdes)] at h
    simp at h
  · cases drop
    · rw [PushMessage_blocked q m hdes hfree] at h
      simp at h
    · rw [PushMessage_reject_drop q m hfree] at h
      simp at h
      exact ⟨h.symm, rfl, hfree⟩

theorem mod_window_inj (n k j p : Nat) (hj : j < n) (hp : p < n)
    (h : (k + j) % n = (k + p) % n) : j = p := by
  have h2 : j % n = p % n := Nat.ModEq.add_left_cancel' k h
  rwa [Nat.mod_eq_of_lt hj, Nat.mod_eq_of_lt hp] at h2

theorem getD_mem_of_lt (l : List Nat) (i : Nat) (h : i < l.length) : l.getD i 0 ∈ l := by
  rw [List.getD_eq_getElem?_getD, List.getElem?_eq_getElem h]
  exact List.getElem_mem h

theorem getD_eq_getElem_zero (l : List Nat) (i : Nat) (h : i < l.length) : l.getD i 0 = l[i] := by
  rw [List.getD_eq_getElem?_getD, List.getElem?_eq_getElem h]
  rfl

theorem TInv_init (drop : Bool) (n : Nat) (_hn : 0 < n) : TInv drop n (tInit α n) := by
  refine ⟨rfl, by simp [tInit, MMQ.init], rfl, rfl, ?_, ?_, ?_, ?_, ?_, ?_, ?_, ?_, ?_, ?_⟩
  · intro x hx
    exact absurd hx (by simp [tInit])
  · simp [tInit]
  · simp [tInit]
  · simp [tInit]
  · simp [tInit, MMQ.init]
  · simp [tInit, MMQ.init]
  · intro j hj
    exact absurd hj (by simp [tInit])
  · intro i hi _
    show ((MMQ.init α n).slotAt i).status = .FREE
    rw [slotAt_init n i hi]
  · intro m2 hm2
    exact absurd hm2 (by simp [tInit])
  · intro _
    rfl

theorem TInv_step (drop : Bool) (n : Nat) (hn : 0 < n) (s s' : TState α)
    (hinv : TInv drop n s) (hstep : TStep drop s s') : TInv drop n s' := by
  obtain ⟨hsize, hlen, hdes, htot, hstdrop, hmono, hkla, halkn, hhead, htail,
    hwin, hallfree, hdisp, hblock⟩ := hinv
  have hheadlt : s.q.head < n := by rw [hhead]; exact Nat.mod_lt _ hn
  have hheadlen : s.q.head < s.q.circular_buffer.length := by rw [hlen]; exact hheadlt
  have htaillt : s.tail < n := by rw [htail]; exact Nat.mod_lt _ hn
  have htaillen : s.tail < s.q.circular_buffer.length := by rw [hlen]; exact htaillt
  cases hstep
  case push m b q' hp =>
    cases b
    case false =>
      obtain ⟨hq', hdropT, hnotfree⟩ :=
        PushMessage_reject_inv drop s.q m q' hheadlen hdes hp
      subst hq'
      subst hdropT
      show TInv true n { s with q := bumpedState s.q, drops := s.drops + 1 }
      refine ⟨hsize, hlen, hdes, ?_, ?_, hmono, hkla, halkn, hhead, htail,
        hwin, hallfree, hdisp, ?_⟩
      · show s.q.total_messages + 1 = s.stamps.length + (s.drops + 1)
        omega
      · intro x hx
        exact le_trans (hstdrop x hx) (Nat.le_succ _)
      · intro hf
        exact absurd hf (by simp)
    case true =>
      obtain ⟨hfreeH, hq'⟩ := PushMessage_accept_inv drop s.q m q' hheadlen hp
      subst hq'
      show TInv drop n { s with q := pushedState s.q m, stamps := s.stamps ++ [s.drops] }
      -- the ring cannot be full: the head slot is FREE
      have hplt : s.stamps.length - s.disp.length < n := by
        by_contra hge
        push_neg at hge
        have haeq : s.stamps.length = s.disp.length + n := by omega
        have hw := hwin 0 (by omega)
        have hheq : s.q.head = (s.disp.length + 0) % n := by
          rw [hhead, haeq, Nat.add_mod_right, Nat.add_zero]
        rw [← hheq] at hw
        rw [hfreeH] at hw
        exact absurd hw.1 (by simp)
      have hslot_ne : ∀ j2 : Nat, j2 ≠ s.q.head →
          (pushedState s.q m).slotAt j2 = s.q.slotAt j2 := by
        intro j2 hne
        simp [pushedState, MMQ.slotAt, List.getD_eq_getElem?_getD,
          List.getElem?_set_ne (Ne.symm hne)]
      have hheadwin : s.q.head =
          (s.disp.length + (s.stamps.length - s.disp.length)) % n := by
        rw [hhead]
        congr 1
        omega
      refine ⟨hsize, by simpa [pushedState] using hlen, hdes, ?_, ?_, ?_, ?_, ?_, ?_,
        htail, ?_, ?_, ?_, ?_⟩
      · show s.q.total_messages + 1 = (s.stamps ++ [s.drops]).length + s.drops
        simp only [List.length_append, List.length_singleton]
        omega
      · intro x hx
        rcases List.mem_append.mp hx with hx | hx
        · exact hstdrop x hx
        · simp at hx
          subst hx
          exact le_refl _
      · rw [List.pairwise_append]
        refine ⟨hmono, by simp, ?_⟩
        intro x hx y hy
        simp at hy
        subst hy
        exact hstdrop x hx
      · show s.disp.length ≤ (s.stamps ++ [s.drops]).length
        simp only [List.length_append, List.length_singleton]
        omega
      · show (s.stamps ++ [s.drops]).length ≤ s.disp.length + n
        simp only [List.length_append, List.length_singleton]
        omega
      · show Increment s.q s.q.head = (s.stamps ++ [s.drops]).length % n
        simp only [Increment, hsize, List.length_append, List.length_singleton]
        rw [hhead, Nat.mod_add_mod]
      · -- the window gained one slot at the old head
        intro j hj
        simp only [List.length_append, List.length_singleton] at hj ⊢
        rcases Nat.lt_or_ge j (s.stamps.length - s.disp.length) with hjp | hjp
        · have hw := hwin j hjp
          have hne : (s.disp.length + j) % n ≠ s.q.head := by
            rw [hheadwin]
            intro he
            have := mod_window_inj n s.disp.length j
              (s.stamps.length - s.disp.length)
              (lt_trans hjp hplt) hplt he
            omega
          rw [hslot_ne _ hne]
          have hkj : s.disp.length + j < s.stamps.length := by omega
          rw [List.getD_append _ _ _ _ hkj]
          exact hw
        · have hjeq : j = s.stamps.length - s.disp.length := by omega
          subst hjeq
          rw [← hheadwin]
          rw [slotAt_pushedState_self s.q m hheadlen]
          refine ⟨rfl, ?_⟩
          show s.q.total_messages =
            s.disp.length + (s.stamps.length - s.disp.length) +
              (s.stamps ++ [s.drops]).getD
                (s.disp.length + (s.stamps.length - s.disp.length)) 0
          have hidx : s.disp.length + (s.stamps.length - s.disp.length) =
              s.stamps.length := by omega
          rw [hidx]
          rw [List.getD_append_right _ _ _ _ (le_refl _)]
          simp
          omega
      · intro i hi hnotin
        simp only [List.length_append, List.length_singleton] at hnotin
        have hih : i ≠ s.q.head := by
          have := hnotin (s.stamps.length - s.disp.length) (by omega)
          rw [← hheadwin] at this
          exact this
        rw [hslot_ne i hih]
        refine hallfree i hi ?_
        intro j hj
        exact hnotin j (by omega)
      · intro m2 hm2
        have hm2k : m2 < s.disp.length := hm2
        have hm2a : m2 < s.stamps.length := by omega
        show s.disp.getD m2 0 = m2 + (s.stamps ++ [s.drops]).getD m2 0
        rw [List.getD_append _ _ _ _ hm2a]
        exact hdisp m2 hm2k
      · intro hf
        exact hblock hf
  case consume a0 snap q' t' hc =>
    obtain ⟨hdesC, hreadyT, ha0, hsnap, hq', ht'⟩ :=
      consumerStepFn_inv s.q s.tail a0 snap q' t' htaillen hc
    subst hq'
    subst ht'
    subst ha0
    -- the window is nonempty: the tail slot is READY
    have hklt : s.disp.length < s.stamps.length := by
      by_contra hge
      push_neg at hge
      have hF := hallfree s.tail htaillt (fun j hj => by omega)
      rw [hF] at hreadyT
      exact absurd hreadyT (by simp)
    have htail0 : s.tail = (s.disp.length + 0) % n := by
      rw [htail, Nat.add_zero]
    have hw0 := hwin 0 (by omega)
    rw [← htail0] at hw0
    have ha0v : (s.q.slotAt s.tail).absolute_index =
        s.disp.length + s.stamps.getD s.disp.length 0 := by
      have := hw0.2
      simpa using this
    refine ⟨hsize, by simpa [MMQ.modifySlot] using hlen, hdes, htot, hstdrop, hmono,
      ?_, ?_, hhead, ?_, ?_, ?_, ?_, hblock⟩
    · show (s.disp ++ [(s.q.slotAt s.tail).absolute_index]).length ≤ s.stamps.length
      simp only [List.length_append, List.length_singleton]
      omega
    · show s.stamps.length ≤
        (s.disp ++ [(s.q.slotAt s.tail).absolute_index]).length + n
      simp only [List.length_append, List.length_singleton]
      omega
    · show Increment s.q s.tail =
        (s.disp ++ [(s.q.slotAt s.tail).absolute_index]).length % n
      simp only [Increment, hsize, List.length_append, List.length_singleton]
      rw [htail, Nat.mod_add_mod]
    · intro j hj
      simp only [List.length_append, List.length_singleton] at hj ⊢
      have hjp : j + 1 < s.stamps.length - s.disp.length := by omega
      have hw := hwin (j + 1) hjp
      have harith : s.disp.length + 1 + j = s.disp.length + (j + 1) := by omega
      rw [harith]
      have hplen : s.stamps.length - s.disp.length ≤ n := by omega
      have hne : s.tail ≠ (s.disp.length + (j + 1)) % n := by
        rw [htail0]
        intro he
        have := mod_window_inj n s.disp.length 0 (j + 1) hn
          (lt_of_lt_of_le hjp hplen) he
        omega
      rw [slotAt_modifySlot_ne s.q s.tail _ _ hne]
      exact hw
    · intro i hi hnotin
      simp only [List.length_append, List.length_singleton] at hnotin
      by_cases hit : i = s.tail
      · subst hit
        have := slotAt_modifySlot_self s.q s.tail
          (fun e => { e with status := .FREE }) htaillen
        rw [this]
      · rw [slotAt_modifySlot_ne s.q s.tail i _ (fun he => hit he.symm)]
        refine hallfree i hi ?_
        intro j hj
        rcases Nat.eq_zero_or_pos j with hj0 | hj1
        · subst hj0
          rw [Nat.add_zero, ← htail]
          exact fun he => hit he
        · have harith2 : s.disp.length + j = s.disp.length + 1 + (j - 1) := by omega
          rw [harith2]
          exact hnotin (j - 1) (by omega)
    · intro m2 hm2
      simp only [List.length_append, List.length_singleton] at hm2
      show (s.disp ++ [(s.q.slotAt s.tail).absolute_index]).getD m2 0 =
        m2 + s.stamps.getD m2 0
      rcases Nat.lt_or_ge m2 s.disp.length with hm2k | hm2k
      · rw [List.getD_append _ _ _ _ hm2k]
        exact hdisp m2 hm2k
      · have hm2eq : m2 = s.disp.length := by omega
        subst hm2eq
        rw [List.getD_append_right _ _ _ _ (le_refl _)]
        simpa using ha0v

theorem TReach_inv (drop : Bool) (n : Nat) (hn : 0 < n) (s : TState α)
    (hr : TReach drop n s) : TInv drop n s := by
  induction hr with
  | init => exact TInv_init drop n hn
  | step s1 s2 _ hstep ih => exact TInv_step drop n hn s1 s2 ih hstep

/-! ## Claim C1 -/

/-- C1 counterexample: a two-producer execution of the block-policy queue
(capacity 2) refuting the claim as stated.  Producer A reserves slot 0,
producer B reserves slot 1; B materializes first (line 95 reads
`total_messages_ = 0` outside the mutex), commits and increments; A then
materializes reading `total_messages_ = 1`, commits and increments.  The
consumer dispatches the absolute_index sequence [1, 0]: not strictly
increasing, and not 0..M-1 even though both of the M = 2 submissions were
accepted. -/
theorem mpsc_dispatch_not_monotone_counterexample :
    MReach false 2 2
      ({ q := { circular_buffer_size := 2
                circular_buffer := [⟨1, 10, .FREE⟩, ⟨0, 20, .FREE⟩]
                head := 0
                total_messages := 2
                destructing := false }
         tail := 0
         pphases := [.idle, .idle]
         disp := [1, 0] } : MState Nat) ∧
    ¬ List.Pairwise (· < ·) ([1, 0] : List Nat) ∧
    ([1, 0] : List Nat) ≠ List.range 2 := by
  refine ⟨?_, by decide, by decide⟩
  have h0 : MReach false 2 2 (mInit Nat 2 2) := MReach.init
  have e1 : MStep false (mInit Nat 2 2)
      ({ q := { circular_buffer_size := 2
                circular_buffer := [⟨0, 0, .BEING_IMPORTED⟩, ⟨0, 0, .FREE⟩]
                head := 1
                total_messages := 0
                destructing := false }
         tail := 0
         pphases := [.reserved 0, .idle]
         disp := [] } : MState Nat) :=
    MStep.pAllocate _ 0 0 _ (by decide) (by decide) (by decide)
  have e2 : MStep false
      ({ q := { circular_buffer_size := 2
                circular_buffer := [⟨0, 0, .BEING_IMPORTED⟩, ⟨0, 0, .FREE⟩]
                head := 1
                total_messages := 0
                destructing := false }
         tail := 0
         pphases := [.reserved 0, .idle]
         disp := [] } : MState Nat)
      ({ q := { circular_buffer_size := 2
                circular_buffer := [⟨0, 0, .BEING_IMPORTED⟩, ⟨0, 0, .BEING_IMPORTED⟩]
                head := 0
                total_messages := 0
                destructing := false }
         tail := 0
         pphases := [.reserved 0, .reserved 1]
         disp := [] } : MState Nat) :=
    MStep.pAllocate _ 1 1 _ (by decide) (by decide) (by decide)
  have e3 : MStep false
      ({ q := { circular_buffer_size := 2
                circular_buffer := [⟨0, 0, .BEING_IMPORTED⟩, ⟨0, 0, .BEING_IMPORTED⟩]
                head := 0
                total_messages := 0
                destructing := false }
         tail := 0
         pphases := [.reserved 0, .reserved 1]
         disp := [] } : MState Nat)
      ({ q := { circular_buffer_size := 2
                circular_buffer := [⟨0, 0, .BEING_IMPORTED⟩, ⟨0, 20, .READY⟩]
                head := 0
                total_messages := 1
                destructing := false }
         tail := 0
         pphases := [.reserved 0, .idle]
         disp := [] } : MState Nat) :=
    MStep.pMaterializeCommit _ 1 1 20 (by decide)
  have e4 : MStep false
      ({ q := { circular_buffer_size := 2
                circular_buffer := [⟨0, 0, .BEING_IMPORTED⟩, ⟨0, 20, .READY⟩]
                head := 0
                total_messages := 1
                destructing := false }
         tail := 0
         pphases := [.reserved 0, .idle]
         disp := [] } : MState Nat)
      ({ q := { circular_buffer_size := 2
                circular_buffer := [⟨1, 10, .READY⟩, ⟨0, 20, .READY⟩]
                head := 0
                total_messages := 2
                destructing := false }
         tail := 0
         pphases := [.idle, .idle]
         disp := [] } : MState Nat) :=
    MStep.pMaterializeCommit _ 0 0 10 (by decide)
  have e5 : MStep false
      ({ q := { circular_buffer_size := 2
                circular_buffer := [⟨1, 10, .READY⟩, ⟨0, 20, .READY⟩]
                head := 0
                total_messages := 2
                destructing := false }
         tail := 0
         pphases := [.idle, .idle]
         disp := [] } : MState Nat)
      ({ q := { circular_buffer_size := 2
                circular_buffer := [⟨1, 10, .FREE⟩, ⟨0, 20, .READY⟩]
                head := 0
                total_messages := 2
                destructing := false }
         tail := 1
         pphases := [.idle, .idle]
         disp := [1] } : MState Nat) :=
    MStep.consume _ 1 2 _ 1 (by decide)
  have e6 : MStep false
      ({ q := { circular_buffer_size := 2
                circular_buffer := [⟨1, 10, .FREE⟩, ⟨0, 20, .READY⟩]
                head := 0
                total_messages := 2
                destructing := false }
         tail := 1
         pphases := [.idle, .idle]
         disp := [1] } : MState Nat)
      ({ q := { circular_buffer_size := 2
                circular_buffer := [⟨1, 10, .FREE⟩, ⟨0, 20, .FREE⟩]
                head := 0
                total_messages := 2
                destructing := false }
         tail := 0
         pphases := [.idle, .idle]
         disp := [1, 0] } : MState Nat) :=
    MStep.consume _ 0 2 _ 0 (by decide)
  exact MReach.step _ _ (MReach.step _ _ (MReach.step _ _ (MReach.step _ _
    (MReach.step _ _ (MReach.step _ _ h0 e1) e2) e3) e4) e5) e6

/-- C1 amended: for executions in which submissions are serialized — a
single producer thread, or producers that never overlap mid-submission,
which is the coarse trace system `TStep` — in every reachable state:
(1) the sequence of absolute_index values dispatched to the sink is
strictly increasing; (2) in block-on-overflow mode, once every submission
has been dispatched, the dispatched sequence is exactly 0, 1, ..., M-1 in
order, where M = total_messages is the number of submissions made; (3) for
every dispatched message (either mode), its absolute_index equals the
number of previously dispatched messages plus the number of rejected
(dropped) submissions that had occurred before it was submitted — the
latter is the `stamps` ghost, which the step relation appends from the
`drops` counter at submission time.  With two or more concurrent
producers the unrestricted claim fails, because line 95 reads
`total_messages_` outside the mutex (see the C1 counterexample). -/
theorem dispatch_trace_properties (drop : Bool) (n : Nat) (s : TState α)
    (hn : 0 < n) (hr : TReach drop n s) :
    List.Pairwise (· < ·) s.disp ∧
    (drop = false → s.disp.length = s.q.total_messages →
        s.disp = List.range s.q.total_messages) ∧
    (∀ m2 : Nat, m2 < s.disp.length →
        s.disp.getD m2 0 = m2 + s.stamps.getD m2 0 ∧
        s.stamps.getD m2 0 ≤ s.drops) := by
  obtain ⟨hsize, hlen, hdes, htot, hstdrop, hmono, hkla, halkn, hhead, htail,
    hwin, hallfree, hdisp, hblock⟩ := TReach_inv drop n hn s hr
  have hstep3 : ∀ m2 : Nat, m2 < s.disp.length →
      s.disp.getD m2 0 = m2 + s.stamps.getD m2 0 ∧
      s.stamps.getD m2 0 ≤ s.drops := by
    intro m2 hm2
    exact ⟨hdisp m2 hm2, hstdrop _ (getD_mem_of_lt s.stamps m2 (by omega))⟩
  refine ⟨?_, ?_, hstep3⟩
  · rw [List.pairwise_iff_getElem]
    intro i j hi hj hij
    have hdi := (hstep3 i hi).1
    have hdj := (hstep3 j hj).1
    have hi2 : i < s.stamps.length := by omega
    have hj2 : j < s.stamps.length := by omega
    have hsij : s.stamps.getD i 0 ≤ s.stamps.getD j 0 := by
      have hp := (List.pairwise_iff_getElem.mp hmono) i j hi2 hj2 hij
      rw [getD_eq_getElem_zero s.stamps i hi2, getD_eq_getElem_zero s.stamps j hj2]
      exact hp
    rw [← getD_eq_getElem_zero s.disp i hi, ← getD_eq_getElem_zero s.disp j hj,
        hdi, hdj]
    omega
  · intro hdrop hlen_eq
    have hdrops0 : s.drops = 0 := hblock hdrop
    refine List.ext_getElem (by simpa using hlen_eq) ?_
    intro i h1 h2
    have hi : i < s.disp.length := h1
    have hle := (hstep3 i hi).2
    have hsti : s.stamps.getD i 0 = 0 := by omega
    have hval := (hstep3 i hi).1
    rw [hsti, Nat.add_zero] at hval
    rw [← getD_eq_getElem_zero s.disp i hi, hval]
    simp [List.getElem_range]

theorem dispatch_trace_properties_witness :
    List.Pairwise (· < ·) (tInit Nat 1).disp :=
  (dispatch_trace_properties false 1 (tInit Nat 1) (by decide) TReach.init).1

end MMQVerif
